import Mathlib

/-!
Shallow embedding of the `miteclock.activities` and `miteclock.cli` core
(pattern matching, entity resolution, shortcut expansion/validation,
activity-to-time-entry-spec building, idempotent entry resolution),
translated from `src/miteclock/activities.py` and `src/miteclock/cli.py`.

Python exceptions are modelled with `Except PyErr`; Python dict values that
can be a string, an int or `None` are modelled with `EVal`; raw pattern
definitions (Python dicts with string or string-dict values, insertion
ordered) with `PatternData`.  String literals that must contain a literal
brace character use the escapes for braces.
-/

/-- Python exception kinds raised by the embedded code, with their messages.
`keyError` carries the missing key (Python renders `str(KeyError(k))` as the
quoted key). `assertionError` is a bare `assert` failure, which has no
message. -/
inductive PyErr where
  | valueError (msg : String)
  | typeError (msg : String)
  | keyError (key : String)
  | assertionError
deriving DecidableEq

/-- The exception class of a `PyErr`, ignoring the message.  Used to state
that re-raising preserves the error kind. -/
inductive ErrClass where
  | valueE
  | typeE
  | keyE
  | assertE
deriving DecidableEq

def PyErr.kind : PyErr → ErrClass
  | .valueError _ => .valueE
  | .typeError _ => .typeE
  | .keyError _ => .keyE
  | .assertionError => .assertE

/-- Python `str(e)` on an exception: the message for ValueError/TypeError,
the quoted key for KeyError, empty for a bare AssertionError. -/
def PyErr.str : PyErr → String
  | .valueError m => m
  | .typeError m => m
  | .keyError k => "'" ++ k ++ "'"
  | .assertionError => ""

instance {ε α : Type} [DecidableEq ε] [DecidableEq α] : DecidableEq (Except ε α)
  | .error a, .error b =>
    if h : a = b then .isTrue (congrArg Except.error h)
    else .isFalse fun he => h (Except.error.inj he)
  | .error _, .ok _ => .isFalse fun he => Except.noConfusion he
  | .ok _, .error _ => .isFalse fun he => Except.noConfusion he
  | .ok a, .ok b =>
    if h : a = b then .isTrue (congrArg Except.ok h)
    else .isFalse fun he => h (Except.ok.inj he)

/-- A value stored in an entity record coming from the remote API: a string,
an integer, or Python `None`. -/
inductive EVal where
  | vs (s : String)
  | vi (n : Int)
  | vnone
deriving DecidableEq

/-- An entity (project or service) as the code sees it: a Python dict,
modelled as an insertion-ordered association list. -/
abbrev Entity := List (String × EVal)

/-- A value inside a structured pattern definition: either a string or a
nested dict of strings (as produced by TOML configuration parsing). -/
inductive PVal where
  | s (v : String)
  | t (d : List (String × String))
deriving DecidableEq

/-- A structured pattern definition: a Python dict with string keys, in
insertion order. -/
abbrev PatternData := List (String × PVal)

/-- A token flowing through shortcut expansion and into `find_unique`:
a plain string, a structured pattern dict, or some other Python value
(carried as its `repr` rendering, only relevant for error formatting). -/
inductive Tok where
  | s (v : String)
  | d (dd : PatternData)
  | other (pyrepr : String)
deriving DecidableEq

/-- Python `in` on strings: `strContains h n = true` iff `n` occurs as a
contiguous substring of `h` (the empty needle always matches). -/
def strContains (haystack needle : String) : Bool :=
  let h := haystack.data
  let n := needle.data
  (List.range (h.length + 1)).any fun i => (h.drop i).take n.length == n

/-- Rendering of one value by `_as_toml` (the observable behaviour of
`tomlkit.dumps` on an inline table, fixed by the repository's tests:
`Pattern.parse({"pattern": "test", "match": "substring"})` must carry the
definition string `{pattern = "test", match = "substring"}`). -/
def renderTomlVal : PVal → String
  | .s v => "\"" ++ v ++ "\""
  | .t d =>
    "\x7b" ++ String.intercalate ", " (d.map fun kv => kv.1 ++ " = \"" ++ kv.2 ++ "\"")
      ++ "\x7d"

/-- `_as_toml(pattern_data)` from `activities.py`: render a structured
pattern definition as a TOML inline table string. -/
def _as_toml (d : PatternData) : String :=
  "\x7b" ++ String.intercalate ", " (d.map fun kv => kv.1 ++ " = " ++ renderTomlVal kv.2)
    ++ "\x7d"

/-- The matching predicates built by pattern parsing.  The source represents
them as callable objects (`StrictMatch`, `SubstringMatch`, `And`); here they
are a first-order datatype evaluated by `evalPred`. -/
inductive MatchingPredicate where
  | StrictMatch (fieldname : String) (pattern : PVal)
  | SubstringMatch (fieldname : String) (pattern : PVal)
  | And (predicates : List MatchingPredicate)

mutual
/-- Evaluate a matching predicate on an entity, as the `__call__` methods do.
`entry[self.fieldname]` on a missing key raises `KeyError`; `==` between a
non-string field value and a string pattern is Python-false; `pattern in
value` demands both sides be strings, else `TypeError`. -/
def evalPred : MatchingPredicate → Entity → Except PyErr Bool
  | .StrictMatch f p, e =>
    match e.lookup f with
    | none => .error (.keyError f)
    | some (.vs v) =>
      match p with
      | .s pat => .ok (v == pat)
      | .t _ => .ok false
    | some _ => .ok false
  | .SubstringMatch f p, e =>
    match e.lookup f with
    | none => .error (.keyError f)
    | some (.vs v) =>
      match p with
      | .s pat => .ok (strContains v pat)
      | .t _ => .error (.typeError "'in <string>' requires string as left operand, not dict")
    | some _ => .error (.typeError "argument of type 'NoneType' is not iterable")
  | .And ps, e => evalAll ps e

/-- Python `all(pred(entry) for pred in self.predicates)`: evaluate in order,
short-circuiting on the first false, propagating the first exception. -/
def evalAll : List MatchingPredicate → Entity → Except PyErr Bool
  | [], _ => .ok true
  | p :: rest, e =>
    match evalPred p e with
    | .error err => .error err
    | .ok false => .ok false
    | .ok true => evalAll rest e
end

/-- A compiled pattern: the predicate plus the human-readable definition
string used in error messages.  The source calls the first field `matches`;
that is a reserved word here, so it is named `matchesPred`. -/
structure Pattern where
  matchesPred : MatchingPredicate
  definition : String

/-- The two input shapes `_parse_simple` accepts: a bare string, or a dict. -/
inductive SimpleIn where
  | str (v : String)
  | dict (d : List (String × PVal))

/-- Coerce a structured-pattern value into a `_parse_simple` input. -/
def simpleOfPVal : PVal → SimpleIn
  | .s v => .str v
  | .t d => .dict (d.map fun kv => (kv.1, PVal.s kv.2))

/-- Check whether a pattern-dict value equals the Python string
`"substring"` (a nested dict never does). -/
def isSubstringVal : PVal → Bool
  | .s v => v == "substring"
  | .t _ => false

/-- `_parse_simple(pattern_data, fieldname)` from `activities.py`: a bare
string becomes an implicit substring match; a dict needs a `pattern` key and
uses substring matching exactly when `match` (defaulting to `"substring"`)
equals `"substring"`, strict matching otherwise. -/
def _parse_simple (inp : SimpleIn) (fieldname : String := "name") :
    Except PyErr MatchingPredicate :=
  match inp with
  | .str s => .ok (.SubstringMatch fieldname (.s s))
  | .dict d =>
    match d.lookup "pattern" with
    | none => .error (.valueError "'pattern' key is required.")
    | some p =>
      if isSubstringVal ((d.lookup "match").getD (.s "substring")) then
        .ok (.SubstringMatch fieldname p)
      else
        .ok (.StrictMatch fieldname p)

/-- `Pattern.parse(pattern_data)` from `activities.py`.  A non-string,
non-dict value makes Python's `"project" in pattern_data` raise `TypeError`. -/
def Pattern.parse : Tok → Except PyErr Pattern
  | .s s => do
    let m ← _parse_simple (.str s)
    pure ⟨m, s⟩
  | .d dd => do
    let definition := _as_toml dd
    match dd.lookup "project" with
    | some pv =>
      match dd.lookup "client" with
      | some cv => do
        let mp ← _parse_simple (simpleOfPVal pv)
        let mc ← _parse_simple (simpleOfPVal cv) "customer_name"
        pure ⟨.And [mp, mc], definition⟩
      | none => do
        let mp ← _parse_simple (simpleOfPVal pv)
        pure ⟨mp, definition⟩
    | none =>
      match dd.lookup "client" with
      | some _ =>
        .error (.valueError ("Problem parsing this definition: " ++ definition
          ++ ". Cannot filter by client only, please include a 'project' key."))
      | none => do
        let m ← _parse_simple (.dict dd)
        pure ⟨m, definition⟩
  | .other rep =>
    .error (.typeError ("argument of type '" ++ rep ++ "' is not iterable"))

/-- The list comprehension `[e for e in entries if pattern.matches(e)]`:
order preserving, first exception propagates. -/
def filterE (p : Entity → Except PyErr Bool) : List Entity → Except PyErr (List Entity)
  | [] => .ok []
  | e :: rest => do
    let b ← p e
    let tail ← filterE p rest
    pure (if b then e :: tail else tail)

/-- The generator `(m["name"] for m in matched)` consumed by `"\n".join`:
each entity's `name` field, which must exist and be a string. -/
def getNames : List Entity → Except PyErr (List String)
  | [] => .ok []
  | e :: rest =>
    match e.lookup "name" with
    | none => .error (.keyError "name")
    | some (.vs s) => do
      let tail ← getNames rest
      pure (s :: tail)
    | some _ => .error (.typeError "sequence item: expected str instance")

/-- `find_unique(entries, entry_type, pattern_data)` from `activities.py`. -/
def find_unique (entries : List Entity) (entry_type : String) (pattern_data : Tok) :
    Except PyErr Entity := do
  let pattern ← Pattern.parse pattern_data
  let matched ← filterE (evalPred pattern.matchesPred) entries
  match matched with
  | [] =>
    .error (.valueError ("'" ++ pattern.definition ++ "' did not match any "
      ++ entry_type ++ ".\n"))
  | [m] => .ok m
  | _ => do
    let names ← getNames matched
    .error (.valueError ("'" ++ pattern.definition ++ "' matched the following multiple "
      ++ entry_type ++ ":\n" ++ String.intercalate "\n" names ++ "\n\n"
      ++ "Please provide an unambiguous pattern."))

/-- A shortcut expansion value: a string, a list, a structured pattern dict,
or an unsupported Python value (carried as the rendering of its type, for the
validator's error message). -/
inductive SVal where
  | vstr (v : String)
  | vlist (l : List Tok)
  | vdict (d : PatternData)
  | vother (tyname : String)
deriving DecidableEq

/-- The shortcut table: a Python dict from shortcut keys to expansions,
modelled as an insertion-ordered association list. -/
abbrev ShortcutTable := List (String × SVal)

/-- The line `expansions = expansion if isinstance(expansion, list) else
[expansion]` in `_expand`: a non-list expansion is wrapped as a singleton. -/
def expansionToks : SVal → List Tok
  | .vstr v => [.s v]
  | .vlist l => l
  | .vdict d => [.d d]
  | .vother t => [.other t]

/-- The cycle error message raised by `_expand`: it joins the breadcrumb
list with arrows and names the repeated key in the prefix. -/
def cycleMsg (key : String) (breadcrumbs : List String) : String :=
  "Detected a cycle when expanding key '" ++ key ++ "': "
    ++ String.intercalate " -> " breadcrumbs ++ "\n" ++ "Please check your shortcuts."

/-- Number of table keys not yet visited: the termination measure for
`_expand` (each recursion step moves one fresh table key into the
breadcrumbs). -/
def keysLeft (table : ShortcutTable) (breadcrumbs : List String) : Nat :=
  ((table.map Prod.fst).filter fun x => decide (x ∉ breadcrumbs)).length

theorem length_filter_mono {α : Type} {p q : α → Bool}
    (h : ∀ x, q x = true → p x = true) :
    ∀ l : List α, (l.filter q).length ≤ (l.filter p).length := by
  intro l
  induction l with
  | nil => simp
  | cons x xs ih =>
    by_cases hq : q x = true
    · simp [List.filter_cons, hq, h x hq]
      exact ih
    · simp only [Bool.not_eq_true] at hq
      by_cases hp : p x = true
      · simp [List.filter_cons, hq, hp]
        exact Nat.le_succ_of_le ih
      · simp only [Bool.not_eq_true] at hp
        simp [List.filter_cons, hq, hp]
        exact ih

theorem length_filter_lt {α : Type} {p q : α → Bool}
    (h : ∀ x, q x = true → p x = true) {a : α} (hpa : p a = true) (hqa : q a = false) :
    ∀ l : List α, a ∈ l → (l.filter q).length < (l.filter p).length := by
  intro l
  induction l with
  | nil => intro hmem; cases hmem
  | cons x xs ih =>
    intro hmem
    rcases List.mem_cons.mp hmem with hax | hmem'
    · subst hax
      simp [List.filter_cons, hpa, hqa]
      exact Nat.lt_succ_of_le (length_filter_mono h xs)
    · by_cases hq : q x = true
      · simp [List.filter_cons, hq, h x hq]
        exact ih hmem'
      · simp only [Bool.not_eq_true] at hq
        by_cases hp : p x = true
        · simp [List.filter_cons, hq, hp]
          exact Nat.lt_succ_of_lt (ih hmem')
        · simp only [Bool.not_eq_true] at hp
          simp [List.filter_cons, hq, hp]
          exact ih hmem'

theorem lookup_mem_keys {β : Type} {table : List (String × β)} {k : String} {v : β}
    (h : table.lookup k = some v) : k ∈ table.map Prod.fst := by
  induction table with
  | nil => simp [List.lookup] at h
  | cons kv rest ih =>
    rw [List.lookup] at h
    by_cases he : k = kv.1
    · simp [he]
    · have hbeq : (k == kv.1) = false := beq_false_of_ne he
      rw [hbeq] at h
      simp [ih h]

theorem keysLeft_lt {table : ShortcutTable} {breadcrumbs : List String} {k : String}
    (hbc : k ∉ breadcrumbs) {v : SVal} (hlk : table.lookup k = some v) :
    keysLeft table (breadcrumbs ++ [k]) < keysLeft table breadcrumbs := by
  apply length_filter_lt (a := k)
  · intro x hx
    simp only [decide_eq_true_eq] at hx ⊢
    intro hmem
    exact hx (List.mem_append_left _ hmem)
  · simpa using hbc
  · simp
  · exact lookup_mem_keys hlk

mutual
/-- `_expand(key, shortcuts, breadcrumbs)` from `activities.py`.  The cycle
check `key in breadcrumbs` runs first; it can only fire for string keys,
since breadcrumbs only ever collect string keys found in the table (a dict
or other value never equals a string, so for those the check is vacuous and
they are leaves, as is a string absent from the table). -/
def _expand (key : Tok) (shortcuts : ShortcutTable) (breadcrumbs : List String) :
    Except PyErr (List Tok) :=
  match key with
  | .d dd => .ok [.d dd]
  | .other t => .ok [.other t]
  | .s k =>
    if h : k ∈ breadcrumbs then
      .error (.valueError (cycleMsg k breadcrumbs))
    else
      match hlk : shortcuts.lookup k with
      | none => .ok [.s k]
      | some v => _expandList (expansionToks v) shortcuts (breadcrumbs ++ [k])
termination_by (keysLeft shortcuts breadcrumbs, 0)
decreasing_by
  exact Prod.Lex.left _ _ (keysLeft_lt h hlk)

/-- The loop `for sk in expansions: next_level += _expand(sk, shortcuts,
breadcrumbs=breadcrumbs + [key])` in `_expand`, also reused for the token
loop in `to_time_entry_spec` (with empty breadcrumbs): expand each element
in order and concatenate, propagating the first error. -/
def _expandList (toks : List Tok) (shortcuts : ShortcutTable) (breadcrumbs : List String) :
    Except PyErr (List Tok) :=
  match toks with
  | [] => .ok []
  | t :: ts => do
    let a ← _expand t shortcuts breadcrumbs
    let b ← _expandList ts shortcuts breadcrumbs
    pure (a ++ b)
termination_by (keysLeft shortcuts breadcrumbs, toks.length + 1)
decreasing_by
  · exact Prod.Lex.right _ (Nat.zero_lt_succ _)
  · exact Prod.Lex.right _ (Nat.lt_succ_self _)
end

/-- Expand each token of a list with `f` and concatenate the results,
propagating the first error; `none` (fuel exhaustion) is also propagated. -/
def _expandGo (f : Tok → Option (Except PyErr (List Tok))) :
    List Tok → Option (Except PyErr (List Tok))
  | [] => some (.ok [])
  | t :: ts =>
    match f t with
    | none => none
    | some (.error e) => some (.error e)
    | some (.ok a) =>
      match _expandGo f ts with
      | none => none
      | some (.error e) => some (.error e)
      | some (.ok b) => some (.ok (a ++ b))

/-- Fuel-indexed variant of `_expand`, counting recursion depth: `none`
means the depth budget was exhausted.  Used to state that the source's
unbounded recursion never needs more depth than the number of table keys
plus one.  Structurally recursive on the fuel, so it evaluates by `rfl`. -/
def _expandFuel : Nat → Tok → ShortcutTable → List String → Option (Except PyErr (List Tok))
  | 0, _, _, _ => none
  | _ + 1, .d dd, _, _ => some (.ok [.d dd])
  | _ + 1, .other t, _, _ => some (.ok [.other t])
  | fuel + 1, .s k, shortcuts, breadcrumbs =>
    if k ∈ breadcrumbs then
      some (.error (.valueError (cycleMsg k breadcrumbs)))
    else
      match shortcuts.lookup k with
      | none => some (.ok [.s k])
      | some v =>
        _expandGo (fun t => _expandFuel fuel t shortcuts (breadcrumbs ++ [k]))
          (expansionToks v)

/-- Fuel-indexed variant of `_expandList`. -/
def _expandListFuel (fuel : Nat) (toks : List Tok) (shortcuts : ShortcutTable)
    (breadcrumbs : List String) : Option (Except PyErr (List Tok)) :=
  _expandGo (fun t => _expandFuel fuel t shortcuts breadcrumbs) toks

/-- Non-dependent unfolding equation for `_expand` on a string key. -/
theorem _expand_s (k : String) (shortcuts : ShortcutTable) (bc : List String) :
    _expand (.s k) shortcuts bc =
      if k ∈ bc then .error (.valueError (cycleMsg k bc))
      else match shortcuts.lookup k with
        | none => .ok [.s k]
        | some v => _expandList (expansionToks v) shortcuts (bc ++ [k]) := by
  rw [_expand]
  by_cases hk : k ∈ bc
  · simp [hk]
  · simp only [hk, dite_false]
    cases hv : shortcuts.lookup k <;> simp [hv]

/-- Unfolding equation for `_expandList` on a non-empty token list. -/
theorem _expandList_cons (t : Tok) (ts : List Tok) (shortcuts : ShortcutTable)
    (bc : List String) :
    _expandList (t :: ts) shortcuts bc = (do
      let a ← _expand t shortcuts bc
      let b ← _expandList ts shortcuts bc
      pure (a ++ b)) := by
  rw [_expandList]

theorem expandFuel_sound : ∀ fuel : Nat,
    (∀ key shortcuts breadcrumbs, keysLeft shortcuts breadcrumbs < fuel →
      _expandFuel fuel key shortcuts breadcrumbs = some (_expand key shortcuts breadcrumbs))
    ∧ (∀ toks shortcuts breadcrumbs, keysLeft shortcuts breadcrumbs < fuel →
      _expandListFuel fuel toks shortcuts breadcrumbs =
        some (_expandList toks shortcuts breadcrumbs)) := by
  intro fuel
  induction fuel with
  | zero =>
    constructor
    · intro _ _ _ hlt; exact absurd hlt (Nat.not_lt_zero _)
    · intro _ _ _ hlt; exact absurd hlt (Nat.not_lt_zero _)
  | succ fuel ih =>
    have hP : ∀ key shortcuts breadcrumbs, keysLeft shortcuts breadcrumbs < fuel + 1 →
        _expandFuel (fuel + 1) key shortcuts breadcrumbs =
          some (_expand key shortcuts breadcrumbs) := by
      intro key shortcuts bc hlt
      match key with
      | .d dd => simp [_expandFuel, _expand]
      | .other t => simp [_expandFuel, _expand]
      | .s k =>
        rw [_expand_s]
        by_cases hk : k ∈ bc
        · simp [_expandFuel, hk]
        · cases hlk : shortcuts.lookup k with
          | none => simp [_expandFuel, hk, hlk]
          | some v =>
            have hlt' : keysLeft shortcuts (bc ++ [k]) < fuel :=
              Nat.lt_of_lt_of_le (keysLeft_lt hk hlk) (Nat.lt_succ_iff.mp hlt)
            have hql := ih.2 (expansionToks v) shortcuts (bc ++ [k]) hlt'
            unfold _expandListFuel at hql
            simp [_expandFuel, hk, hlk, hql]
    refine ⟨hP, ?_⟩
    intro toks
    induction toks with
    | nil => intro _ _ _; simp [_expandListFuel, _expandGo, _expandList]
    | cons t ts ihts =>
      intro shortcuts bc hlt
      have hq := ihts shortcuts bc hlt
      unfold _expandListFuel at hq ⊢
      rw [_expandList_cons]
      simp only [_expandGo]
      rw [hP t shortcuts bc hlt]
      cases hx : _expand t shortcuts bc with
      | error e => simp [hx, Bind.bind, Except.bind]
      | ok a =>
        rw [hq]
        cases hy : _expandList ts shortcuts bc with
        | error e => simp [hx, hy, Bind.bind, Except.bind]
        | ok b => simp [hx, hy, Bind.bind, Except.bind, Pure.pure, Except.pure]

/-- With initial empty breadcrumbs, fuel `table.length + 1` is always
enough: expansion terminates within that recursion depth. -/
theorem expandFuel_enough (shortcuts : ShortcutTable) (key : Tok) :
    _expandFuel (shortcuts.length + 1) key shortcuts [] =
      some (_expand key shortcuts []) := by
  apply (expandFuel_sound _).1
  have h1 : keysLeft shortcuts [] ≤ (shortcuts.map Prod.fst).length :=
    List.length_filter_le _ _
  have h2 : (shortcuts.map Prod.fst).length = shortcuts.length := List.length_map _ _
  omega

/-- The Python `repr` of a token, used in the shape-error message of
`to_time_entry_spec` (the f-string interpolates the Python list). -/
def pyReprTok : Tok → String
  | .s v => "'" ++ v ++ "'"
  | .d dd =>
    "\x7b" ++ String.intercalate ", " (dd.map fun kv =>
      "'" ++ kv.1 ++ "': " ++
        (match kv.2 with
         | .s v => "'" ++ v ++ "'"
         | .t sub =>
           "\x7b" ++ String.intercalate ", " (sub.map fun kv2 =>
             "'" ++ kv2.1 ++ "': '" ++ kv2.2 ++ "'") ++ "\x7d")) ++ "\x7d"
  | .other rep => rep

/-- The Python `repr` of the intermediate token list. -/
def pyReprToks (l : List Tok) : String :=
  "[" ++ String.intercalate ", " (l.map pyReprTok) ++ "]"

/-- The message of the shape error raised by `to_time_entry_spec` when the
expanded list cannot be read as (project, service, note). -/
def shapeMsg (values : List Tok) : String :=
  "Cannot interpret the result of expanding your input: " ++ pyReprToks values ++ ",\n"
    ++ "The result should have the following items (order matters!): "
    ++ "project, service, note (optional)."

/-- The `entity["id"]` access on the entity returned by `find_unique`. -/
def getId (e : Entity) : Except PyErr EVal :=
  match e.lookup "id" with
  | none => .error (.keyError "id")
  | some v => .ok v

/-- The record returned by `to_time_entry_spec` (a plain dict in the
source): optional project id, optional service id (Python `None` is
`EVal.vnone`), and the note token passed through unresolved. -/
structure TimeEntrySpec where
  project_id : EVal
  service_id : EVal
  note : Tok
deriving DecidableEq

/-- The resolution tail of `to_time_entry_spec`: an empty-string pattern
becomes `None` without consulting `find_unique`; any other pattern is
resolved to the unique match's `id`.  The project slot is evaluated first,
as in the source. -/
def resolveValues (proj_pattern service_pattern note : Tok)
    (projects services : List Entity) : Except PyErr TimeEntrySpec := do
  let matching_project ←
    if proj_pattern = .s "" then pure EVal.vnone
    else do getId (← find_unique projects "projects" proj_pattern)
  let matching_service ←
    if service_pattern = .s "" then pure EVal.vnone
    else do getId (← find_unique services "services" service_pattern)
  pure ⟨matching_project, matching_service, note⟩

/-- `to_time_entry_spec(activity, shortcuts, projects, services)` from
`activities.py`. -/
def to_time_entry_spec (activity : List Tok) (shortcuts : ShortcutTable)
    (projects services : List Entity) : Except PyErr TimeEntrySpec :=
  if activity = [] then .error .assertionError
  else if activity.length > 3 then
    .error (.valueError "Activity definition too long, please enter at most 3 items.")
  else do
    let values ← _expandList activity shortcuts []
    let values := if values.length = 2 then values ++ [.s ""] else values
    match values with
    | [proj_pattern, service_pattern, note] =>
      resolveValues proj_pattern service_pattern note projects services
    | _ => .error (.valueError (shapeMsg values))

/-- `_validate_shortcut_expansion` from `activities.py`: the singledispatch
family validating one expansion value. -/
def _validate_shortcut_expansion : SVal → Except PyErr Unit
  | .vstr _ => .ok ()
  | .vlist l =>
    if l.length = 0 then .error (.valueError "List expansion cannot be empty.")
    else if l.length > 3 then
      .error (.valueError ("Shortcut expansions cannot be longer than 3 items, got "
        ++ toString l.length ++ "."))
    else .ok ()
  | .vdict _ => .ok ()
  | .vother tyname =>
    .error (.typeError ("Unsupported expansion type: " ++ tyname ++ "."))

/-- The `raise e.__class__(f"The expansion for shortcut '{k}' is invalid:
{e}")` re-raise in `validate_shortcuts`: same class, prefixed message. -/
def reraisePrefixed (k : String) : PyErr → PyErr
  | .valueError m =>
    .valueError ("The expansion for shortcut '" ++ k ++ "' is invalid: " ++ m)
  | .typeError m =>
    .typeError ("The expansion for shortcut '" ++ k ++ "' is invalid: " ++ m)
  | e => e

/-- The `for k, v in sc.items()` loop of `validate_shortcuts`. -/
def validateEntries : ShortcutTable → Except PyErr Unit
  | [] => .ok ()
  | (k, v) :: rest =>
    match _validate_shortcut_expansion v with
    | .error e => .error (reraisePrefixed k e)
    | .ok () => validateEntries rest

/-- `validate_shortcuts(sc)` from `activities.py` (for a mapping input; a
non-mapping fails the top-level isinstance check before this loop). -/
def validate_shortcuts (sc : ShortcutTable) : Except PyErr ShortcutTable :=
  match validateEntries sc with
  | .error e => .error e
  | .ok () => .ok sc

/-- A time entry already present on the server today, reduced to the fields
`_idempotent_entry` reads plus its server id. -/
structure TimeEntry where
  id : Int
  project_id : EVal
  service_id : EVal
  note : String
deriving DecidableEq

/-- The `EntrySpec` attrs class from `cli.py`: frozen, structural equality,
with a `str.strip` converter on `note`. -/
structure EntrySpec where
  project_id : EVal
  service_id : EVal
  note : String
deriving DecidableEq

/-- Python `str.strip()` with no arguments: remove leading and trailing
whitespace.  Implemented over the character list so that it reduces in the
kernel. -/
def pyStrip (s : String) : String :=
  ⟨((s.data.dropWhile Char.isWhitespace).reverse.dropWhile Char.isWhitespace).reverse⟩

/-- Constructing an `EntrySpec` runs the attrs converter, trimming the
note.  All construction in `_idempotent_entry` goes through this. -/
def EntrySpec.make (p s : EVal) (n : String) : EntrySpec := ⟨p, s, pyStrip n⟩

/-- The key `EntrySpec(e["project_id"], e["service_id"], e["note"])` built
for an existing entry in the lookup comprehension. -/
def specOf (e : TimeEntry) : EntrySpec :=
  EntrySpec.make e.project_id e.service_id e.note

/-- `_idempotent_entry(entries_today, entry_spec, api)` from `cli.py`.  The
`api` collaborator is the injected `create` function; the second component
of the result records the calls made to it (the Python dict comprehension
keeps the last entry for duplicate keys, hence the reversed search). -/
def _idempotent_entry (entries_today : List TimeEntry) (entry_spec : EntrySpec)
    (create : EntrySpec → TimeEntry) : TimeEntry × List EntrySpec :=
  let entry := EntrySpec.make entry_spec.project_id entry_spec.service_id entry_spec.note
  match entries_today.reverse.find? fun e => specOf e == entry with
  | some e => (e, [])
  | none => (create entry, [entry])

theorem keysLeft_nil_lt (shortcuts : ShortcutTable) :
    keysLeft shortcuts [] < shortcuts.length + 1 := by
  have h1 : keysLeft shortcuts [] ≤ (shortcuts.map Prod.fst).length :=
    List.length_filter_le _ _
  have h2 : (shortcuts.map Prod.fst).length = shortcuts.length := List.length_map _ _
  omega

/-- Evaluate `_expand` on concrete input through its fuel-indexed variant
(which reduces by `rfl`, unlike the well-founded definition). -/
theorem _expand_eval {shortcuts : ShortcutTable} {key : Tok} {r : Except PyErr (List Tok)}
    (h : _expandFuel (shortcuts.length + 1) key shortcuts [] = some r) :
    _expand key shortcuts [] = r := by
  have h2 := expandFuel_enough shortcuts key
  rw [h] at h2
  exact (Option.some.inj h2).symm

/-- Evaluate `_expandList` on concrete input through the fuel-indexed
variant. -/
theorem _expandList_eval {shortcuts : ShortcutTable} {toks : List Tok}
    {r : Except PyErr (List Tok)}
    (h : _expandListFuel (shortcuts.length + 1) toks shortcuts [] = some r) :
    _expandList toks shortcuts [] = r := by
  have h2 := (expandFuel_sound (shortcuts.length + 1)).2 toks shortcuts []
    (keysLeft_nil_lt shortcuts)
  rw [h] at h2
  exact (Option.some.inj h2).symm

/-!  Concrete fixtures drawn from the repository's test suite. -/

/-- The two ambiguous projects from the test fixture `projects` in
`tests/conftest.py` (ids 4 and 5; only the second carries a customer). -/
def projectsATT : List Entity :=
  [[("name", .vs "AT&T/Designing OS"), ("id", .vi 4)],
   [("name", .vs "AT&T/Designing OS"), ("id", .vi 5), ("customer_name", .vs "AT&T")]]

/-- The cyclic shortcut table from the repository's cycle test. -/
def cyclicShortcuts : ShortcutTable := [("a", .vstr "b"), ("b", .vstr "a")]

/-- A service entity: service records carry no `customer_name` field. -/
def servicesPlain : List Entity := [[("name", .vs "Development"), ("id", .vi 0)]]

/-- A compound pattern with a `client` sub-pattern. -/
def clientPat : Tok := .d [("project", .s "Dev"), ("client", .s "X")]

set_option maxRecDepth 8192 in
/-- C1: evaluating `find_unique` at the repository's own ambiguous-projects
test fixture.  The zero-match message is as claimed, but the ambiguous-match
message lists the bare `name` fields without the "(Customer: AT&T)" suffix
that the claim (and the repository's test
`test_find_unique_ambiguous_project`) requires, so the two distinct projects
are listed under the same display name. -/
theorem find_unique_ambiguous_message_lacks_customer_suffix :
    find_unique projectsATT "projects" (.s "zzz") =
      .error (.valueError "'zzz' did not match any projects.\n")
    ∧ find_unique projectsATT "projects" (.s "AT&T") =
        .error (.valueError ("'AT&T' matched the following multiple projects:\n"
          ++ "AT&T/Designing OS\nAT&T/Designing OS\n\n"
          ++ "Please provide an unambiguous pattern."))
    ∧ strContains
        ("'AT&T' matched the following multiple projects:\n"
          ++ "AT&T/Designing OS\nAT&T/Designing OS\n\n"
          ++ "Please provide an unambiguous pattern.")
        "AT&T/Designing OS (Customer: AT&T)" = false := by
  refine ⟨rfl, rfl, rfl⟩

/-- C3: expanding key `a` in the table `{a: "b", b: "a"}` does fail with the
cycle error, but its message joins only the breadcrumb list (`"a -> b"`); the
repeated key is named in the prefix and never appended to the chain, so the
message does not contain `"a -> b -> a"` as the claim (and the assertion
written in the repository's test `test_to_time_entry_spec_avoids_cycles`)
requires. -/
theorem expand_cycle_message_lacks_repeated_key :
    _expand (.s "a") cyclicShortcuts [] =
      .error (.valueError ("Detected a cycle when expanding key 'a': a -> b\n"
        ++ "Please check your shortcuts."))
    ∧ strContains ("Detected a cycle when expanding key 'a': a -> b\n"
        ++ "Please check your shortcuts.") "a -> b -> a" = false := by
  exact ⟨_expand_eval (by decide), rfl⟩

/-- C4 counterexample: a structured pattern with the unrecognized explicit
`match` value `"bogus"` is not rejected; it compiles to a strict-match
predicate. -/
theorem unrecognized_match_value_not_rejected :
    Pattern.parse (.d [("pattern", .s "x"), ("match", .s "bogus")]) =
      .ok ⟨.StrictMatch "name" (.s "x"), "\x7bpattern = \"x\", match = \"bogus\"\x7d"⟩ := rfl

theorem lookup_map_pval (d : List (String × String)) (key : String) :
    (d.map fun kv => (kv.1, PVal.s kv.2)).lookup key = (d.lookup key).map PVal.s := by
  induction d with
  | nil => rfl
  | cons kv rest ih =>
    simp only [List.map_cons, List.lookup]
    cases h : key == kv.1 <;> simp [h, ih]

/-- Whether `_parse_simple` accepts a sub-pattern value: a bare string
always parses, a dict parses exactly when it has a `pattern` key. -/
def simpleParseOk : PVal → Bool
  | .s _ => true
  | .t d => (d.lookup "pattern").isSome

theorem simpleParse_isOk (pv : PVal) (f : String) :
    (_parse_simple (simpleOfPVal pv) f).isOk = simpleParseOk pv := by
  cases pv with
  | s v => rfl
  | t d =>
    simp only [simpleOfPVal, _parse_simple, lookup_map_pval, simpleParseOk]
    cases hp : d.lookup "pattern" with
    | none => simp [Except.isOk, Except.toBool]
    | some pat =>
      simp only [Option.map_some', Option.isSome_some]
      split <;> rfl

theorem simpleParse_fail (pv : PVal) (f : String) (h : simpleParseOk pv = false) :
    _parse_simple (simpleOfPVal pv) f = .error (.valueError "'pattern' key is required.") := by
  cases pv with
  | s v => simp [simpleParseOk] at h
  | t d =>
    cases hp : d.lookup "pattern" with
    | none => simp [simpleOfPVal, _parse_simple, lookup_map_pval, hp]
    | some pat => rw [simpleParseOk, hp] at h; simp at h

theorem simpleParse_ok_exists (pv : PVal) (f : String) (h : simpleParseOk pv = true) :
    ∃ mp, _parse_simple (simpleOfPVal pv) f = .ok mp := by
  have hh := simpleParse_isOk pv f
  rw [h] at hh
  cases hx : _parse_simple (simpleOfPVal pv) f with
  | error e => rw [hx] at hh; simp [Except.isOk, Except.toBool] at hh
  | ok mp => exact ⟨mp, rfl⟩

/-- A sub-pattern dict with an explicit `match` value other than
`"substring"` (recognized or not) parses to a strict match. -/
theorem simpleParse_strict (d : List (String × String)) (f pat m : String)
    (hp : d.lookup "pattern" = some pat) (hm : d.lookup "match" = some m)
    (hsub : m ≠ "substring") :
    _parse_simple (simpleOfPVal (.t d)) f = .ok (.StrictMatch f (.s pat)) := by
  simp [simpleOfPVal, _parse_simple, lookup_map_pval, hp, hm, isSubstringVal, hsub]

/-- C4 amended: compilation of a structured pattern fails exactly when a
structured (sub-)pattern lacks the required `pattern` key or a compound
pattern supplies `client` without `project` — for a plain structured
pattern, for `{project: P}` and for `{project: P, client: C}` alike — and an
explicit `match` value other than `"substring"` (recognized or not) is never
validated: at top level and inside project/client sub-patterns it silently
yields a strict-match predicate instead of being rejected. -/
theorem parse_failure_characterization (dd : PatternData) :
    (dd.lookup "project" = none → dd.lookup "client" = none →
      ((Pattern.parse (.d dd)).isOk = true ↔ (dd.lookup "pattern").isSome = true))
    ∧ (∀ cv, dd.lookup "project" = none → dd.lookup "client" = some cv →
      Pattern.parse (.d dd) = .error (.valueError ("Problem parsing this definition: "
        ++ _as_toml dd ++ ". Cannot filter by client only, please include a 'project' key.")))
    ∧ (∀ p m, dd.lookup "project" = none → dd.lookup "client" = none →
      dd.lookup "pattern" = some p → dd.lookup "match" = some m →
      isSubstringVal m = false →
      Pattern.parse (.d dd) = .ok ⟨.StrictMatch "name" p, _as_toml dd⟩)
    ∧ (∀ pv, dd.lookup "project" = some pv → dd.lookup "client" = none →
      ((Pattern.parse (.d dd)).isOk = true ↔ simpleParseOk pv = true))
    ∧ (∀ pv cv, dd.lookup "project" = some pv → dd.lookup "client" = some cv →
      ((Pattern.parse (.d dd)).isOk = true ↔
        (simpleParseOk pv = true ∧ simpleParseOk cv = true)))
    ∧ (∀ pv, dd.lookup "project" = some pv → dd.lookup "client" = none →
      simpleParseOk pv = false →
      Pattern.parse (.d dd) = .error (.valueError "'pattern' key is required."))
    ∧ (∀ d pat m, dd.lookup "project" = some (.t d) → dd.lookup "client" = none →
      d.lookup "pattern" = some pat → d.lookup "match" = some m → m ≠ "substring" →
      Pattern.parse (.d dd) = .ok ⟨.StrictMatch "name" (.s pat), _as_toml dd⟩)
    ∧ (∀ pv d pat m, dd.lookup "project" = some pv → dd.lookup "client" = some (.t d) →
      simpleParseOk pv = true →
      d.lookup "pattern" = some pat → d.lookup "match" = some m → m ≠ "substring" →
      ∃ mp, _parse_simple (simpleOfPVal pv) "name" = .ok mp
        ∧ Pattern.parse (.d dd) =
            .ok ⟨.And [mp, .StrictMatch "customer_name" (.s pat)], _as_toml dd⟩) := by
  refine ⟨?_, ?_, ?_, ?_, ?_, ?_, ?_, ?_⟩
  · intro hproj hcli
    cases hp : dd.lookup "pattern" with
    | none =>
      simp [Pattern.parse, hproj, hcli, _parse_simple, hp, Bind.bind, Except.bind,
        Except.isOk, Except.toBool]
    | some p =>
      simp only [Pattern.parse, hproj, hcli, _parse_simple, hp, Bind.bind, Except.bind]
      cases hm : isSubstringVal ((dd.lookup "match").getD (.s "substring")) <;>
        simp [hm, Except.isOk, Except.toBool, Pure.pure, Except.pure]
  · intro cv hproj hcli
    simp [Pattern.parse, hproj, hcli]
  · intro p m hproj hcli hp hm hsub
    simp [Pattern.parse, hproj, hcli, _parse_simple, hp, hm, hsub, Bind.bind,
      Except.bind, Pure.pure, Except.pure]
  · intro pv hproj hcli
    have hh := simpleParse_isOk pv "name"
    cases hx : _parse_simple (simpleOfPVal pv) "name" with
    | error e =>
      rw [hx] at hh
      simp only [Except.isOk, Except.toBool] at hh
      simp [Pattern.parse, hproj, hcli, hx, Bind.bind, Except.bind,
        Except.isOk, Except.toBool, ← hh]
    | ok mp =>
      rw [hx] at hh
      simp only [Except.isOk, Except.toBool] at hh
      simp [Pattern.parse, hproj, hcli, hx, Bind.bind, Except.bind,
        Pure.pure, Except.pure, Except.isOk, Except.toBool, ← hh]
  · intro pv cv hproj hcli
    have hhp := simpleParse_isOk pv "name"
    have hhc := simpleParse_isOk cv "customer_name"
    cases hx : _parse_simple (simpleOfPVal pv) "name" with
    | error e =>
      rw [hx] at hhp
      simp only [Except.isOk, Except.toBool] at hhp
      simp [Pattern.parse, hproj, hcli, hx, Bind.bind, Except.bind,
        Except.isOk, Except.toBool, ← hhp]
    | ok mp =>
      rw [hx] at hhp
      simp only [Except.isOk, Except.toBool] at hhp
      cases hy : _parse_simple (simpleOfPVal cv) "customer_name" with
      | error e =>
        rw [hy] at hhc
        simp only [Except.isOk, Except.toBool] at hhc
        simp [Pattern.parse, hproj, hcli, hx, hy, Bind.bind, Except.bind,
          Except.isOk, Except.toBool, ← hhc]
      | ok mc =>
        rw [hy] at hhc
        simp only [Except.isOk, Except.toBool] at hhc
        simp [Pattern.parse, hproj, hcli, hx, hy, Bind.bind, Except.bind,
          Pure.pure, Except.pure, Except.isOk, Except.toBool, ← hhp, ← hhc]
  · intro pv hproj hcli hfail
    have hf := simpleParse_fail pv "name" hfail
    simp [Pattern.parse, hproj, hcli, hf, Bind.bind, Except.bind]
  · intro d pat m hproj hcli hp hm hsub
    have hs := simpleParse_strict d "name" pat m hp hm hsub
    simp [Pattern.parse, hproj, hcli, hs, Bind.bind, Except.bind,
      Pure.pure, Except.pure]
  · intro pv d pat m hproj hcli hok hp hm hsub
    obtain ⟨mp, hmp⟩ := simpleParse_ok_exists pv "name" hok
    have hc := simpleParse_strict d "customer_name" pat m hp hm hsub
    exact ⟨mp, hmp, by
      simp [Pattern.parse, hproj, hcli, hmp, hc, Bind.bind, Except.bind,
        Pure.pure, Except.pure]⟩

/-- C4 witness: instantiating the amended characterization at the patterns
`{"match": "strict"}` (missing `pattern` key), a strict top-level pattern,
`{project: {match: "strict"}}` (missing `pattern` key inside the project
sub-pattern), and `{project: {pattern: "z", match: "bogus"}}` (unrecognized
`match` inside the project sub-pattern, silently strict). -/
theorem parse_failure_characterization_witness :
    ((Pattern.parse (.d [("match", .s "strict")])).isOk = true ↔
      (([("match", PVal.s "strict")] : PatternData).lookup "pattern").isSome = true)
    ∧ Pattern.parse (.d [("pattern", .s "y"), ("match", .s "strict")]) =
        .ok ⟨.StrictMatch "name" (.s "y"),
          _as_toml [("pattern", .s "y"), ("match", .s "strict")]⟩
    ∧ ((Pattern.parse (.d [("project", .t [("match", "strict")])])).isOk = true ↔
        simpleParseOk (.t [("match", "strict")]) = true)
    ∧ Pattern.parse (.d [("project", .t [("pattern", "z"), ("match", "bogus")])]) =
        .ok ⟨.StrictMatch "name" (.s "z"),
          _as_toml [("project", .t [("pattern", "z"), ("match", "bogus")])]⟩ :=
  ⟨(parse_failure_characterization [("match", .s "strict")]).1 rfl rfl,
   (parse_failure_characterization [("pattern", .s "y"), ("match", .s "strict")]).2.2.1
     (.s "y") (.s "strict") rfl rfl rfl rfl rfl,
   (parse_failure_characterization [("project", .t [("match", "strict")])]).2.2.2.1
     (.t [("match", "strict")]) rfl rfl,
   (parse_failure_characterization
       [("project", .t [("pattern", "z"), ("match", "bogus")])]).2.2.2.2.2.2.1
     [("pattern", "z"), ("match", "bogus")] "z" "bogus" rfl rfl rfl rfl (by decide)⟩

/-- C10: the compound pattern with a `client` sub-pattern compiles fine and
passes shortcut validation, but evaluating it against a service record
(which has no `customer_name` field) makes `find_unique` fail with a raw
`KeyError` rather than any of the typed core errors; the same leak is
reachable through `to_time_entry_spec`'s service slot. -/
theorem client_pattern_on_services_raises_keyerror :
    (Pattern.parse clientPat).isOk = true
    ∧ find_unique servicesPlain "services" clientPat = .error (.keyError "customer_name")
    ∧ validate_shortcuts [("q", .vdict [("project", .s "Dev"), ("client", .s "X")])] =
        .ok [("q", .vdict [("project", .s "Dev"), ("client", .s "X")])]
    ∧ to_time_entry_spec [.s "", clientPat, .s "note"] [] [] servicesPlain =
        .error (.keyError "customer_name") := by
  refine ⟨rfl, rfl, rfl, ?_⟩
  have hexp : _expandList [.s "", clientPat, .s "note"] ([] : ShortcutTable) [] =
      .ok [.s "", clientPat, .s "note"] := _expandList_eval (by decide)
  have hfu : find_unique servicesPlain "services" clientPat =
      .error (.keyError "customer_name") := rfl
  have hne : (clientPat = Tok.s "") = False := by simp [clientPat]
  simp [to_time_entry_spec, hexp, Bind.bind, Except.bind, resolveValues, hfu, hne,
    Pure.pure, Except.pure]

/-- Modelled from the spec (refinement reference for C5): simple matching
semantics — `strict` means the field value equals the pattern exactly,
`substring` (the default) means the pattern is contained in the field value,
case-sensitively, with no normalization. -/
def specMatchesSimple (p : PVal) (fieldval : String) : Bool :=
  match p with
  | .s pat => strContains fieldval pat
  | .t d =>
    match d.lookup "pattern" with
    | none => false
    | some pat =>
      if (d.lookup "match").getD "substring" = "strict" then fieldval == pat
      else strContains fieldval pat

/-- A simple sub-pattern that is well formed in the spec's sense: a bare
string, or a dict with a `pattern` key whose `match` value (if any) is one
of the two recognized ones. -/
def wellFormedSimple : PVal → Prop
  | .s _ => True
  | .t d => (d.lookup "pattern").isSome = true
      ∧ ((d.lookup "match").getD "substring" = "substring"
        ∨ (d.lookup "match").getD "substring" = "strict")

/-- For a well-formed simple sub-pattern and an entity carrying the string
field, `_parse_simple` succeeds and the compiled predicate evaluates to the
spec's matching semantics on that field. -/
theorem parse_simple_eval {p : PVal} {f : String} {e : Entity} {v : String}
    (hwf : wellFormedSimple p) (hf : e.lookup f = some (.vs v)) :
    ∃ pr, _parse_simple (simpleOfPVal p) f = .ok pr
      ∧ evalPred pr e = .ok (specMatchesSimple p v) := by
  cases p with
  | s pat =>
    exact ⟨.SubstringMatch f (.s pat), rfl, by simp [evalPred, hf, specMatchesSimple]⟩
  | t d =>
    obtain ⟨hp, hm⟩ := hwf
    obtain ⟨pat, hpat⟩ := Option.isSome_iff_exists.mp hp
    cases hmv : d.lookup "match" with
    | none =>
      refine ⟨.SubstringMatch f (.s pat), ?_, ?_⟩
      · simp [simpleOfPVal, _parse_simple, lookup_map_pval, hpat, hmv, isSubstringVal]
      · simp [evalPred, hf, specMatchesSimple, hpat, hmv]
    | some mv =>
      rw [hmv] at hm
      simp only [Option.getD_some] at hm
      cases hm with
      | inl hsub =>
        refine ⟨.SubstringMatch f (.s pat), ?_, ?_⟩
        · simp [simpleOfPVal, _parse_simple, lookup_map_pval, hpat, hmv, hsub, isSubstringVal]
        · simp [evalPred, hf, specMatchesSimple, hpat, hmv, hsub]
      | inr hstrict =>
        refine ⟨.StrictMatch f (.s pat), ?_, ?_⟩
        · simp [simpleOfPVal, _parse_simple, lookup_map_pval, hpat, hmv, hstrict, isSubstringVal]
        · simp [evalPred, hf, specMatchesSimple, hpat, hmv, hstrict]

/-- C5: for every entity with string-valued `name` and `customer_name`
fields and every well-formed compound pattern, compilation succeeds with the
conjunction of the project predicate on `name` and the client predicate on
`customer_name`, the compiled predicate evaluates exactly to the spec's
AND-semantics, and a `client`-only pattern always fails to compile. -/
theorem compound_pattern_semantics (P C : PVal) (e : Entity) (nm cn : String)
    (hP : wellFormedSimple P) (hC : wellFormedSimple C)
    (hname : e.lookup "name" = some (.vs nm))
    (hcust : e.lookup "customer_name" = some (.vs cn)) :
    (∃ pat, Pattern.parse (.d [("project", P), ("client", C)]) = .ok pat
      ∧ evalPred pat.matchesPred e = .ok (specMatchesSimple P nm && specMatchesSimple C cn))
    ∧ (∀ C', Pattern.parse (.d [("client", C')]) =
        .error (.valueError ("Problem parsing this definition: "
          ++ _as_toml [("client", C')]
          ++ ". Cannot filter by client only, please include a 'project' key."))) := by
  constructor
  · obtain ⟨prP, hpP, heP⟩ := parse_simple_eval hP hname
    obtain ⟨prC, hpC, heC⟩ := parse_simple_eval hC hcust
    refine ⟨⟨.And [prP, prC], _as_toml [("project", P), ("client", C)]⟩, ?_, ?_⟩
    · simp [Pattern.parse, List.lookup, hpP, hpC, Bind.bind, Except.bind,
        Pure.pure, Except.pure]
    · cases hb : specMatchesSimple P nm <;> cases hc : specMatchesSimple C cn <;>
        · rw [hb] at heP
          rw [hc] at heC
          simp [evalPred, evalAll, heP, heC]
  · intro C'
    rfl

/-- C5 witness: the compound pattern `{project: "Backend", client:
{pattern: "ZDF", match: "strict"}}` against the ZDF backend project. -/
theorem compound_pattern_semantics_witness :
    (∃ pat, Pattern.parse (.d [("project", .s "Backend"),
        ("client", .t [("pattern", "ZDF"), ("match", "strict")])]) = .ok pat
      ∧ evalPred pat.matchesPred
          [("name", .vs "Rewriting Backend"), ("customer_name", .vs "ZDF"), ("id", .vi 2)] =
          .ok (specMatchesSimple (.s "Backend") "Rewriting Backend"
            && specMatchesSimple (.t [("pattern", "ZDF"), ("match", "strict")]) "ZDF"))
    ∧ (∀ C', Pattern.parse (.d [("client", C')]) =
        .error (.valueError ("Problem parsing this definition: "
          ++ _as_toml [("client", C')]
          ++ ". Cannot filter by client only, please include a 'project' key."))) :=
  compound_pattern_semantics (.s "Backend") (.t [("pattern", "ZDF"), ("match", "strict")])
    [("name", .vs "Rewriting Backend"), ("customer_name", .vs "ZDF"), ("id", .vi 2)]
    "Rewriting Backend" "ZDF" trivial ⟨rfl, Or.inr rfl⟩ rfl rfl

theorem _expandList_append (shortcuts : ShortcutTable) (toks more : List Tok)
    (bc : List String) :
    _expandList (toks ++ more) shortcuts bc = (do
      let a ← _expandList toks shortcuts bc
      let b ← _expandList more shortcuts bc
      pure (a ++ b)) := by
  induction toks with
  | nil =>
    cases hy : _expandList more shortcuts bc <;>
      simp [_expandList, hy, Bind.bind, Except.bind, Pure.pure, Except.pure]
  | cons t ts ih =>
    rw [List.cons_append, _expandList_cons, _expandList_cons, ih]
    cases hx : _expand t shortcuts bc with
    | error e => simp [Bind.bind, Except.bind]
    | ok a =>
      cases hy : _expandList ts shortcuts bc with
      | error e => simp [hy, Bind.bind, Except.bind]
      | ok b =>
        cases hz : _expandList more shortcuts bc with
        | error e => simp [hy, hz, Bind.bind, Except.bind, Pure.pure, Except.pure]
        | ok c => simp [hy, hz, Bind.bind, Except.bind, Pure.pure, Except.pure]

/-- C6: `to_time_entry_spec` fails the `assert` on an empty token list and
raises the too-long error above 3 tokens; otherwise it expands the tokens in
order concatenating the results (the append law), appends an empty-string
note exactly when the flattened result has 2 elements, resolves when the
final count is 3, and raises the shape error describing the intermediate
list exactly otherwise. -/
theorem to_time_entry_spec_shape (shortcuts : ShortcutTable)
    (projects services : List Entity) :
    (to_time_entry_spec [] shortcuts projects services = .error .assertionError)
    ∧ (∀ activity : List Tok, 3 < activity.length →
        to_time_entry_spec activity shortcuts projects services =
          .error (.valueError "Activity definition too long, please enter at most 3 items."))
    ∧ (∀ toks more bc, _expandList (toks ++ more) shortcuts bc = (do
        let a ← _expandList toks shortcuts bc
        let b ← _expandList more shortcuts bc
        pure (a ++ b)))
    ∧ (∀ activity p s, activity ≠ [] → activity.length ≤ 3 →
        _expandList activity shortcuts [] = .ok [p, s] →
        to_time_entry_spec activity shortcuts projects services =
          resolveValues p s (.s "") projects services)
    ∧ (∀ activity p s n, activity ≠ [] → activity.length ≤ 3 →
        _expandList activity shortcuts [] = .ok [p, s, n] →
        to_time_entry_spec activity shortcuts projects services =
          resolveValues p s n projects services)
    ∧ (∀ activity values, activity ≠ [] → activity.length ≤ 3 →
        _expandList activity shortcuts [] = .ok values →
        values.length ≠ 2 → values.length ≠ 3 →
        to_time_entry_spec activity shortcuts projects services =
          .error (.valueError (shapeMsg values))) := by
  refine ⟨rfl, ?_, _expandList_append shortcuts, ?_, ?_, ?_⟩
  · intro activity hlen
    have hne : activity ≠ [] := by
      intro h; subst h; simp at hlen
    simp [to_time_entry_spec, hne, hlen]
  · intro activity p s hne hlen hexp
    simp [to_time_entry_spec, hne, Nat.not_lt.mpr hlen, hexp, Bind.bind, Except.bind]
  · intro activity p s n hne hlen hexp
    simp [to_time_entry_spec, hne, Nat.not_lt.mpr hlen, hexp, Bind.bind, Except.bind]
  · intro activity values hne hlen hexp h2 h3
    simp only [to_time_entry_spec, hne, if_false, Nat.not_lt.mpr hlen, hexp,
      Bind.bind, Except.bind, h2]
    match values, h3 with
    | [], _ => rfl
    | [_], _ => rfl
    | [_, _], _ => rfl
    | [_, _, _], h3 => exact absurd rfl h3
    | _ :: _ :: _ :: _ :: _, _ => rfl

/-- C6 witness: a four-token activity hits the too-long error. -/
theorem to_time_entry_spec_shape_witness :
    to_time_entry_spec [.s "a", .s "b", .s "c", .s "d"] [] [] [] =
      .error (.valueError "Activity definition too long, please enter at most 3 items.") :=
  (to_time_entry_spec_shape [] [] []).2.1 [.s "a", .s "b", .s "c", .s "d"] (by decide)

/-- C7: with empty project and service patterns the resulting ids are
Python `None` and the entity lists are never consulted: the result of
`to_time_entry_spec(["", "", ""], {}, projects, services)` is the same for
all entity lists, and `resolveValues` is invariant under changing the
project list (resp. service list) when the corresponding pattern is the
empty string, with the resolved id being `None` in that slot. -/
theorem empty_pattern_resolves_to_none :
    (∀ projects services, to_time_entry_spec [.s "", .s "", .s ""] [] projects services =
        .ok ⟨.vnone, .vnone, .s ""⟩)
    ∧ (∀ sp n projects projects' services,
        resolveValues (.s "") sp n projects services =
          resolveValues (.s "") sp n projects' services)
    ∧ (∀ pp n projects services services',
        resolveValues pp (.s "") n projects services =
          resolveValues pp (.s "") n projects services')
    ∧ (∀ sp n projects services r,
        resolveValues (.s "") sp n projects services = .ok r → r.project_id = .vnone)
    ∧ (∀ pp n projects services r,
        resolveValues pp (.s "") n projects services = .ok r → r.service_id = .vnone) := by
  refine ⟨?_, ?_, ?_, ?_, ?_⟩
  · intro projects services
    have hexp : _expandList [.s "", .s "", .s ""] ([] : ShortcutTable) [] =
        .ok [.s "", .s "", .s ""] := _expandList_eval (by decide)
    simp [to_time_entry_spec, hexp, resolveValues, Bind.bind, Except.bind,
      Pure.pure, Except.pure]
  · intro sp n projects projects' services
    rfl
  · intro pp n projects services services'
    simp only [resolveValues]
    cases hmp : (if pp = Tok.s "" then pure EVal.vnone
        else do getId (← find_unique projects "projects" pp) :
        Except PyErr EVal) <;> rfl
  · intro sp n projects services r h
    by_cases hsp : sp = Tok.s ""
    · simp only [resolveValues, hsp, if_pos, Bind.bind, Except.bind,
        Pure.pure, Except.pure] at h
      rw [← Except.ok.inj h]
    · cases hfu : find_unique services "services" sp with
      | error e =>
        simp [resolveValues, hsp, hfu, Bind.bind, Except.bind,
          Pure.pure, Except.pure] at h
      | ok ent =>
        cases hid : getId ent with
        | error e =>
          simp [resolveValues, hsp, hfu, hid, Bind.bind, Except.bind,
            Pure.pure, Except.pure] at h
        | ok v =>
          simp only [resolveValues, hsp, if_neg, if_pos, hfu, hid, Bind.bind,
            Except.bind, Pure.pure, Except.pure] at h
          rw [← Except.ok.inj h]
  · intro pp n projects services r h
    by_cases hpp : pp = Tok.s ""
    · simp only [resolveValues, hpp, if_pos, Bind.bind, Except.bind,
        Pure.pure, Except.pure] at h
      rw [← Except.ok.inj h]
    · cases hfu : find_unique projects "projects" pp with
      | error e =>
        simp [resolveValues, hpp, hfu, Bind.bind, Except.bind,
          Pure.pure, Except.pure] at h
      | ok ent =>
        cases hid : getId ent with
        | error e =>
          simp [resolveValues, hpp, hfu, hid, Bind.bind, Except.bind,
            Pure.pure, Except.pure] at h
        | ok v =>
          simp only [resolveValues, hpp, if_neg, if_pos, hfu, hid, Bind.bind,
            Except.bind, Pure.pure, Except.pure] at h
          rw [← Except.ok.inj h]

/-- C7 witness: instantiating the none-id conjunct at concrete input. -/
theorem empty_pattern_resolves_to_none_witness :
    (⟨.vnone, .vnone, .s ""⟩ : TimeEntrySpec).project_id = .vnone :=
  empty_pattern_resolves_to_none.2.2.2.1 (.s "") (.s "") [] [] ⟨.vnone, .vnone, .s ""⟩ rfl

/-- C8: per-expansion validation accepts every string, accepts a list
exactly when its length is in `[1, 3]` (ValueError otherwise), accepts any
dict without deep validation, and rejects other types with TypeError; a
failure for key `k` is re-raised with the same kind and the prefixed
message; a table whose entries all validate passes (so the cyclic table
`{a: "b", b: "a"}` passes — no cycle detection at validation time), and the
first failing entry determines the error. -/
theorem validate_shortcuts_characterization :
    (∀ s, _validate_shortcut_expansion (.vstr s) = .ok ())
    ∧ (∀ l : List Tok, _validate_shortcut_expansion (.vlist l) = .ok () ↔
        (1 ≤ l.length ∧ l.length ≤ 3))
    ∧ (∀ l : List Tok, _validate_shortcut_expansion (.vlist l) = .ok ()
        ∨ ∃ m, _validate_shortcut_expansion (.vlist l) = .error (.valueError m))
    ∧ (∀ d, _validate_shortcut_expansion (.vdict d) = .ok ())
    ∧ (∀ t, _validate_shortcut_expansion (.vother t) =
        .error (.typeError ("Unsupported expansion type: " ++ t ++ ".")))
    ∧ (∀ k e, (reraisePrefixed k e).kind = e.kind)
    ∧ (∀ k m, reraisePrefixed k (.valueError m) =
        .valueError ("The expansion for shortcut '" ++ k ++ "' is invalid: " ++ m)
      ∧ reraisePrefixed k (.typeError m) =
        .typeError ("The expansion for shortcut '" ++ k ++ "' is invalid: " ++ m))
    ∧ (∀ sc : ShortcutTable, (∀ kv ∈ sc, _validate_shortcut_expansion kv.2 = .ok ()) →
        validate_shortcuts sc = .ok sc)
    ∧ (∀ (pre : ShortcutTable) k v rest e,
        (∀ kv ∈ pre, _validate_shortcut_expansion kv.2 = .ok ()) →
        _validate_shortcut_expansion v = .error e →
        validate_shortcuts (pre ++ (k, v) :: rest) = .error (reraisePrefixed k e))
    ∧ validate_shortcuts cyclicShortcuts = .ok cyclicShortcuts := by
  have hentries : ∀ sc : ShortcutTable,
      (∀ kv ∈ sc, _validate_shortcut_expansion kv.2 = .ok ()) →
      validateEntries sc = .ok () := by
    intro sc h
    induction sc with
    | nil => rfl
    | cons kv rest ih =>
      have hk := h kv (List.mem_cons_self kv rest)
      simp only [validateEntries, hk]
      exact ih fun x hx => h x (List.mem_cons_of_mem kv hx)
  refine ⟨fun _ => rfl, ?_, ?_, fun _ => rfl, fun _ => rfl, ?_, fun _ _ => ⟨rfl, rfl⟩,
    ?_, ?_, rfl⟩
  · intro l
    simp only [_validate_shortcut_expansion]
    constructor
    · intro h
      by_cases h0 : l.length = 0
      · simp [h0] at h
      · by_cases h3 : l.length > 3
        · simp [h0, h3] at h
        · omega
    · intro ⟨h1, h3⟩
      have h0 : ¬ l.length = 0 := by omega
      have h3' : ¬ l.length > 3 := by omega
      simp [h0, h3']
  · intro l
    simp only [_validate_shortcut_expansion]
    by_cases h0 : l.length = 0
    · exact Or.inr ⟨"List expansion cannot be empty.", by simp [h0]⟩
    · by_cases h3 : l.length > 3
      · exact Or.inr ⟨"Shortcut expansions cannot be longer than 3 items, got "
          ++ toString l.length ++ ".", by simp [h0, h3]⟩
      · exact Or.inl (by simp [h0, h3])
  · intro k e
    cases e <;> rfl
  · intro sc h
    simp only [validate_shortcuts, hentries sc h]
  · intro pre k v rest e hpre hv
    have hpre' : validateEntries pre = .ok () := hentries pre hpre
    simp only [validate_shortcuts]
    have : validateEntries (pre ++ (k, v) :: rest) = .error (reraisePrefixed k e) := by
      induction pre with
      | nil => simp [validateEntries, hv]
      | cons kv tl ih =>
        have hk := hpre kv (List.mem_cons_self kv tl)
        simp only [List.cons_append, validateEntries, hk]
        exact ih (fun x hx => hpre x (List.mem_cons_of_mem kv hx)) (hentries tl
          fun x hx => hpre x (List.mem_cons_of_mem kv hx))
    simp [this]

/-- C8 witness: a table whose second entry is an empty-list expansion fails
with the prefixed ValueError; the first entry validates fine. -/
theorem validate_shortcuts_characterization_witness :
    validate_shortcuts [("o", .vstr "OCP"), ("bad", .vlist [])] =
      .error (reraisePrefixed "bad" (.valueError "List expansion cannot be empty.")) :=
  validate_shortcuts_characterization.2.2.2.2.2.2.2.2.1 [("o", .vstr "OCP")] "bad"
    (.vlist []) [] (.valueError "List expansion cannot be empty.")
    (by intro kv hkv; simp at hkv; rw [hkv]; rfl) rfl

/-- C9: expansion always terminates, with recursion depth bounded by the
number of table keys plus one: with that much fuel the fuel-indexed
evaluator never runs out, and it computes exactly the value of the
(well-founded) `_expand`, which by its type returns a flat token list or an
error. -/
theorem expand_terminates_within_table_depth (shortcuts : ShortcutTable) (key : Tok) :
    _expandFuel (shortcuts.length + 1) key shortcuts [] =
      some (_expand key shortcuts []) :=
  expandFuel_enough shortcuts key

/-- C2: `_idempotent_entry` keys existing entries by (project id, service
id, trimmed note); the probe spec's note is trimmed the same way; when some
existing entry matches, that entry is returned and the injected create
collaborator is never invoked (empty call log); otherwise the create
collaborator is invoked exactly once with the trimmed spec payload and its
reported entry is returned. -/
theorem idempotent_entry_correct (entries_today : List TimeEntry) (entry_spec : EntrySpec)
    (create : EntrySpec → TimeEntry) :
    ((EntrySpec.make entry_spec.project_id entry_spec.service_id entry_spec.note).note
      = pyStrip entry_spec.note)
    ∧ ((∃ e ∈ entries_today, specOf e =
          EntrySpec.make entry_spec.project_id entry_spec.service_id entry_spec.note) →
        (_idempotent_entry entries_today entry_spec create).2 = []
        ∧ (_idempotent_entry entries_today entry_spec create).1 ∈ entries_today
        ∧ specOf (_idempotent_entry entries_today entry_spec create).1 =
            EntrySpec.make entry_spec.project_id entry_spec.service_id entry_spec.note)
    ∧ ((∀ e ∈ entries_today, specOf e ≠
          EntrySpec.make entry_spec.project_id entry_spec.service_id entry_spec.note) →
        _idempotent_entry entries_today entry_spec create =
          (create (EntrySpec.make entry_spec.project_id entry_spec.service_id
            entry_spec.note),
           [EntrySpec.make entry_spec.project_id entry_spec.service_id
            entry_spec.note])) := by
  refine ⟨rfl, ?_, ?_⟩
  · intro hex
    cases hf : entries_today.reverse.find? (fun e => specOf e ==
        EntrySpec.make entry_spec.project_id entry_spec.service_id entry_spec.note) with
    | none =>
      exfalso
      obtain ⟨e, hmem, heq⟩ := hex
      have hnone := List.find?_eq_none.mp hf e (List.mem_reverse.mpr hmem)
      exact hnone (by rw [heq]; exact beq_self_eq_true _)
    | some e =>
      have hpred := List.find?_some hf
      have hmem := List.mem_reverse.mp (List.mem_of_find?_eq_some hf)
      have heq : specOf e =
          EntrySpec.make entry_spec.project_id entry_spec.service_id entry_spec.note :=
        eq_of_beq hpred
      refine ⟨?_, ?_, ?_⟩ <;> simp [_idempotent_entry, hf, hmem, heq]
  · intro hall
    cases hf : entries_today.reverse.find? (fun e => specOf e ==
        EntrySpec.make entry_spec.project_id entry_spec.service_id entry_spec.note) with
    | none => simp [_idempotent_entry, hf]
    | some e =>
      exfalso
      have hpred := List.find?_some hf
      have hmem := List.mem_reverse.mp (List.mem_of_find?_eq_some hf)
      exact hall e hmem (eq_of_beq hpred)

/-- C2 witness: a padded-note spec matches the existing daily stand-up
entry (note equality after trimming), so no create call is made. -/
theorem idempotent_entry_correct_witness :
    (_idempotent_entry [⟨0, .vi 1, .vi 6, "daily stand-up"⟩]
        ⟨.vi 1, .vi 6, " daily stand-up "⟩
        (fun s => ⟨99, s.project_id, s.service_id, s.note⟩)).2 = []
    ∧ (_idempotent_entry [⟨0, .vi 1, .vi 6, "daily stand-up"⟩]
        ⟨.vi 1, .vi 6, " daily stand-up "⟩
        (fun s => ⟨99, s.project_id, s.service_id, s.note⟩)).1 ∈
          [(⟨0, .vi 1, .vi 6, "daily stand-up"⟩ : TimeEntry)]
    ∧ specOf (_idempotent_entry [⟨0, .vi 1, .vi 6, "daily stand-up"⟩]
        ⟨.vi 1, .vi 6, " daily stand-up "⟩
        (fun s => ⟨99, s.project_id, s.service_id, s.note⟩)).1 =
        EntrySpec.make (EntrySpec.mk (.vi 1) (.vi 6) " daily stand-up ").project_id
          (EntrySpec.mk (.vi 1) (.vi 6) " daily stand-up ").service_id
          (EntrySpec.mk (.vi 1) (.vi 6) " daily stand-up ").note :=
  (idempotent_entry_correct [⟨0, .vi 1, .vi 6, "daily stand-up"⟩]
      ⟨.vi 1, .vi 6, " daily stand-up "⟩
      (fun s => ⟨99, s.project_id, s.service_id, s.note⟩)).2.1
    ⟨⟨0, .vi 1, .vi 6, "daily stand-up"⟩, List.mem_singleton.mpr rfl, by decide⟩

example : Pattern.parse (.s "test") = .ok ⟨.SubstringMatch "name" (.s "test"), "test"⟩ := rfl

example :
    Pattern.parse (.d [("pattern", .s "test"), ("match", .s "strict")]) =
      .ok ⟨.StrictMatch "name" (.s "test"), "\x7bpattern = \"test\", match = \"strict\"\x7d"⟩ :=
  rfl

example : strContains "Development" "Dev" = true := by decide

example :
    find_unique [[("name", .vs "QA"), ("id", .vi 4)], [("name", .vs "Language QA"), ("id", .vi 5)]]
      "services" (.d [("pattern", .s "QA"), ("match", .s "strict")]) =
      .ok [("name", .vs "QA"), ("id", .vi 4)] := rfl
